import Mathlib

/-! # Verification of the syno-script-stuff media sorters

Shallow embeddings of the media classification and placement engine of this
repository — `MusicStation/mssort.py`, `PhotoStation/pssort.py` and the
thumbnail skip logic of `PhotoStation/psthumbs.py` — together with theorems
settling the specification's claims about them.

Strings are modelled through their character lists; Python's `str` building
blocks (`replace`, `split`, `zfill`, `os.path.join`, `os.path.splitext`,
`int()`, `str.isalnum`, …) are each given an executable Lean counterpart,
defined to mirror CPython's documented behaviour on the character ranges the
repository's metadata uses.  Fallible Python code (a statement that can raise)
is modelled with `Option`, `none` standing for an uncaught exception. -/

/-- Python `str.isalnum`, restricted to the character ranges this repository's
tags and locale use: ASCII letters and digits plus the Latin-1 Supplement and
Latin Extended letter blocks (so that e.g. the German month name "März", which
`locale de_DE` produces in `pssort.py`, keeps its umlaut exactly as it does
under Python's Unicode-aware `isalnum`).  Code points `0xD7` and `0xF7` are
the multiplication and division signs, not letters. -/
def pyIsAlnum (c : Char) : Bool :=
  c.isAlphanum ||
    (decide (0xC0 ≤ c.toNat) && decide (c.toNat ≤ 0x24F) &&
      decide (c.toNat ≠ 0xD7) && decide (c.toNat ≠ 0xF7))

/-- The whitespace characters Python's no-argument `str.split` splits on
(for the ASCII range relevant here). -/
def pyIsSpace (c : Char) : Bool :=
  c == ' ' || c == '\t' || c == '\n' || c == '\x0b' || c == '\x0c' || c == '\r'

/-- The character filter of `sanitize` (mssort.py:88-95 and pssort.py:80-87):
a character survives when `c.isalnum()` holds or it is one of the
`keepcharacters` `(' ', '.', '_')`. -/
def keepChar (c : Char) : Bool :=
  pyIsAlnum c || c == ' ' || c == '.' || c == '_'

/-- Python's no-argument `str.split`: maximal runs of non-whitespace
characters, leading/trailing/repeated whitespace discarded.  `acc` is the
word currently being scanned. -/
def splitWsAux : List Char → List Char → List (List Char)
  | [], acc => if acc.isEmpty then [] else [acc]
  | c :: rest, acc =>
    if pyIsSpace c then
      if acc.isEmpty then splitWsAux rest [] else acc :: splitWsAux rest []
    else
      splitWsAux rest (acc ++ [c])

/-- `s.split()` on a character list. -/
def pySplit (l : List Char) : List (List Char) :=
  splitWsAux l []

/-- `" ".join(words)` on character lists. -/
def joinWords : List (List Char) → List Char
  | [] => []
  | [w] => w
  | w :: w2 :: ws => w ++ ' ' :: joinWords (w2 :: ws)

/-- `sanitize` on a character list: keep only `keepChar` characters, then
`" ".join(string.split())` (mssort.py:88-95, pssort.py:80-87, identical in
both files). -/
def sanitizeL (l : List Char) : List Char :=
  joinWords (pySplit (l.filter keepChar))

/-- `sanitize(string, keepcharacters=(' ', '.', '_'))` of mssort.py:88-95 and
pssort.py:80-87 on an input that is already a string (the `str(...)` coercion
for a non-string argument is applied by the caller, see `pyStr`). -/
def sanitize (s : String) : String :=
  String.mk (sanitizeL s.data)

/-- Python `str(...)` on the `Option String` values tag lookup yields:
`str(None)` is the four-character string `"None"`. -/
def pyStr : Option String → String
  | none => "None"
  | some s => s

/-- `pre` is a prefix of `l` (Python `str.startswith` on character lists). -/
def startsWithL : List Char → List Char → Bool
  | [], _ => true
  | _ :: _, [] => false
  | a :: as, b :: bs => a == b && startsWithL as bs

/-- Work loop of Python `str.replace(pat, rep)`: replace non-overlapping
occurrences left to right.  `fuel` bounds the recursion; every step consumes
at least one character, so `fuel = l.length` suffices (see `replaceAll`).
An empty `pat` makes the scan a no-op (Python would instead interleave `rep`
everywhere; the repository only ever replaces the non-empty patterns
`"the"` and `" of "`). -/
def replaceAllFuel (pat rep : List Char) : Nat → List Char → List Char
  | _, [] => []
  | 0, l => l
  | fuel + 1, c :: l =>
    if startsWithL pat (c :: l) && !pat.isEmpty then
      rep ++ replaceAllFuel pat rep fuel ((c :: l).drop pat.length)
    else
      c :: replaceAllFuel pat rep fuel l

/-- Python `l.replace(pat, rep)` on character lists. -/
def replaceAll (pat rep l : List Char) : List Char :=
  replaceAllFuel pat rep l.length l

/-- Python `str.split(sep)` for a one-character separator: splits on every
occurrence and keeps empty pieces, so the result is never the empty list
(`"".split('/') == ['']`). -/
def splitOnChar (sep : Char) : List Char → List (List Char)
  | [] => [[]]
  | c :: rest =>
    if c == sep then
      [] :: splitOnChar sep rest
    else
      match splitOnChar sep rest with
      | [] => [[c]]
      | w :: ws => (c :: w) :: ws

/-- Python `str.zfill(width)`: left-pad with `'0'` to `width`, keeping a
leading sign in front of the padding. -/
def zfill (width : Nat) (s : String) : String :=
  match s.data with
  | '+' :: rest => String.mk ('+' :: (List.replicate (width - s.data.length) '0' ++ rest))
  | '-' :: rest => String.mk ('-' :: (List.replicate (width - s.data.length) '0' ++ rest))
  | l => String.mk (List.replicate (width - l.length) '0' ++ l)

/-- Digits of a nonempty run of ASCII digit characters as a number, or `none`
if a non-digit appears.  `acc` is the value of the digits read so far. -/
def digitsToNatAux (acc : Nat) : List Char → Option Nat
  | [] => some acc
  | c :: rest =>
    if c.isDigit then digitsToNatAux (acc * 10 + (c.toNat - 48)) rest else none

/-- Python `int(s)` (for the decimal notation the tags use): optional
surrounding whitespace, an optional single sign, then one or more ASCII
digits; anything else raises `ValueError`, modelled as `none`.
(PEP 515 underscore grouping is not modelled.) -/
def pyInt (s : String) : Option Int :=
  let l := (((s.data.dropWhile pyIsSpace).reverse).dropWhile pyIsSpace).reverse
  match l with
  | '+' :: ds => if ds.isEmpty then none else (digitsToNatAux 0 ds).map (fun n => (n : Int))
  | '-' :: ds => if ds.isEmpty then none else (digitsToNatAux 0 ds).map (fun n => -(n : Int))
  | ds => if ds.isEmpty then none else (digitsToNatAux 0 ds).map (fun n => (n : Int))

/-- Decimal digits of `n`, most significant first.  `fuel` bounds the
recursion; `fuel = n + 1` always suffices, see `natStr`. -/
def natDigitsAux : Nat → Nat → List Char
  | 0, _ => []
  | fuel + 1, n =>
    if n < 10 then [Char.ofNat (48 + n)]
    else natDigitsAux fuel (n / 10) ++ [Char.ofNat (48 + n % 10)]

/-- Decimal rendering of a natural number (Python `str(n)` / `'%d' % n`). -/
def natStr (n : Nat) : String :=
  String.mk (natDigitsAux (n + 1) n)

/-- `'%0{width}d' % n`: decimal rendering of `n` left-padded with zeros. -/
def zpad (width n : Nat) : String :=
  String.mk (List.replicate (width - (natStr n).data.length) '0' ++ (natStr n).data)

/-- `os.path.join(a, b)` (posixpath) for two components: `b` absolute
replaces everything, otherwise a `'/'` is inserted unless `a` is empty or
already ends in `'/'`. -/
def pyJoin (a b : String) : String :=
  if startsWithL ['/'] b.data then b
  else if a.data.isEmpty then b
  else if a.data.getLast? == some '/' then a ++ b
  else a ++ "/" ++ b

/-- The part of `path` after the last `'/'` (`os.path.split(path)[1]` on
posix). -/
def baseName (p : List Char) : List Char :=
  (p.reverse.takeWhile (fun c => c != '/')).reverse

/-- The extension, dot included, of `os.path.splitext(p)`: it starts at the
last `'.'` after the last `'/'`, unless every character of the base name up
to that dot is itself a `'.'` (so hidden files like `.bashrc` have no
extension). -/
def splitextExt (p : List Char) : List Char :=
  let base := baseName p
  if base.contains '.' then
    let afterRev := base.reverse.takeWhile (fun c => c != '.')
    let pre := base.take (base.length - afterRev.length - 1)
    if pre.any (fun c => c != '.') then '.' :: afterRev.reverse else []
  else []

/-- Python `str.split('\n')` on a string (as `subprocess.getoutput` returns
one). -/
def splitLines (s : String) : List String :=
  (splitOnChar '\n' s.data).map String.mk

/-! ## Tag dictionaries

`get_file_tags` in both sorters builds a Python `dict` keyed by tag name.
A dict is modelled as an association list in insertion order; inserting an
existing key updates it in place, a new key is appended at the end — exactly
CPython's insertion-order semantics. -/

/-- A tag dictionary: tag name to value, `none` for an absent tag. -/
abbrev TagDict := List (String × Option String)

/-- `d[k] = v` on a Python dict: update in place or append. -/
def dictInsert (k : String) (v : Option String) : TagDict → TagDict
  | [] => [(k, v)]
  | (k2, v2) :: rest =>
    if k2 == k then (k, v) :: rest else (k2, v2) :: dictInsert k v rest

/-- `k in d` on a Python dict. -/
def dictHasKey (k : String) : TagDict → Bool
  | [] => false
  | (k2, _) :: rest => k2 == k || dictHasKey k rest

/-- The first loop of `get_file_tags` (mssort.py:60-64, pssort.py:102-106):
`for i, line in enumerate(output.split('\n')): result[tags[i]] = ...`, a `"-"`
line standing for an absent tag.  The line counter `i` walks the requested
tag list in order, so the loop consumes `tags` positionally; when the output
has more lines than there are requested tags, `tags[i]` raises `IndexError`,
modelled as `none`. -/
def assignLines : List String → List String → TagDict → Option TagDict
  | _, [], d => some d
  | [], _ :: _, _ => none
  | t :: ts, line :: ls, d =>
    assignLines ts ls (dictInsert t (if line == "-" then none else some line) d)

/-- The second loop of `get_file_tags` (mssort.py:66-69, pssort.py:108-111):
`for t in tags: if t not in result: result[t] = None`. -/
def fillMissing (tags : List String) (d : TagDict) : TagDict :=
  tags.foldl (fun acc t => if dictHasKey t acc then acc else acc ++ [(t, none)]) d

/-! ## `MusicStation/mssort.py` -/

namespace mssort

/-- The tag set `mssort.py` requests (mssort.py:195-199), each value the
string exiftool printed or `none` for an absent tag. -/
structure MusicTags where
  Artist : Option String
  Band : Option String
  Album : Option String
  Title : Option String
  Track : Option String
  TrackNumber : Option String
  PartOfSet : Option String
  DiscNumber : Option String
  Compilation : Option String

/-- `get_file_tags(file, tags)` of mssort.py:49-71, as a function of the
requested tag list and of the text the exiftool subprocess produced (the
subprocess itself is an external collaborator).  There is no handling of a
`"File not found"` report here: such a line is stored verbatim as the first
requested tag's value. -/
def get_file_tags (tags : List String) (output : String) : Option TagDict :=
  (assignLines tags (splitLines output) []).map (fillMissing tags)

/-- `get_new_path(file, tags)` of mssort.py:98-120.  The `file` argument is
unused by the source as well. -/
def get_new_path (_file : String) (tags : MusicTags) : String :=
  let artist : String :=
    match tags.Band with
    | some b => b
    | none =>
      if tags.Compilation == some "1" || tags.Compilation == some "Yes" then
        "Compilation"
      else
        match tags.Artist with
        | some a => a
        | none => "Unknown"
  let album : String :=
    match tags.Album with
    | some a => a
    | none => "Unknown"
  -- mssort.py:112-115: `letter = '#'`, then if the filtered list
  -- `[x for x in artist.lower().replace('the', '') if x.isalnum()]` is
  -- nonempty, `letter = _artist[0].upper()`
  let fArtist : List Char :=
    (replaceAll "the".data [] (artist.data.map Char.toLower)).filter pyIsAlnum
  let letter : String :=
    match fArtist.head? with
    | none => "#"
    | some c => String.mk [c.toUpper]
  pyJoin (pyJoin letter (sanitize artist)) (sanitize album)

/-- `get_new_name(file, tags)` of mssort.py:123-148.  `none` models an
uncaught `ValueError` from `int()` (or the `IndexError` of an empty split,
which cannot occur).  Two source facts shape the disc-prefix step:
the guard on line 136 tests `tags['PartOfSet']`, NOT the local `partofset`
variable, so the value derived from `DiscNumber` on lines 131-132 is never
consulted; and when the guard holds the local `partofset` still equals the
`PartOfSet` tag (the derivation only runs when that tag is `None`).
Short-circuit order of lines 138-141: for a one-element split the second
component is never read; for a longer split `int` runs on the first
component, and on the second only when the first exceeds 1. -/
def get_new_name (file : String) (tags : MusicTags) : Option String :=
  let title := tags.Title
  let track0 : Option String :=
    match tags.Track with
    | some t => some t
    | none =>
      match tags.TrackNumber with
      | some tn => some (String.mk (replaceAll " of ".data "/".data tn.data))
      | none => none
  let ext : String := String.mk ((splitextExt file.data).map Char.toLower)
  match track0 with
  | none => some ("00" ++ " " ++ sanitize (pyStr title) ++ ext)
  | some t =>
    let tr := zfill 2 (String.mk ((splitOnChar '/' t.data).headD []))
    match tags.PartOfSet with
    | none => some (tr ++ " " ++ sanitize (pyStr title) ++ ext)
    | some pos =>
      let ps := splitOnChar '/' pos.data
      let track2 : Option String :=
        match ps with
        | [] => none
        | [p0] =>
          match pyInt (String.mk p0) with
          | none => none
          | some v => some (if 1 < v then String.mk p0 ++ "-" ++ tr else tr)
        | p0 :: p1 :: _ =>
          match pyInt (String.mk p0) with
          | none => none
          | some v0 =>
            if 1 < v0 then
              match pyInt (String.mk p1) with
              | none => none
              | some v1 => some (if 1 < v1 then String.mk p0 ++ "-" ++ tr else tr)
            else some tr
      track2.map (fun tr2 => tr2 ++ " " ++ sanitize (pyStr title) ++ ext)

/-- The exceptions a dequeued item's handling can raise in `music_worker`
(mssort.py:151-185): none, an `OSError` inside the `try` block, or any other
exception inside the `try` block. -/
inductive BodyExc
  | ok
  | osError
  | otherExc

/-- What processing one genuine queue item does to the worker thread. -/
structure ItemResult where
  taskDone : Bool
  threadDies : Bool

/-- One iteration of `music_worker` (mssort.py:154-185) on a genuine
(non-sentinel) item, as a function of which step raises.
`tagReadRaises`: `get_file_tags` on line 161 runs BEFORE the `try` block, so
an exception there (e.g. the `IndexError` of `assignLines` when exiftool
prints more lines than tags were requested) propagates out of the loop: the
thread dies and `task_done` is never called.
Inside the `try`: an `OSError` is caught and printed (line 178-179) and the
worker continues.  Any other exception reaches `except Exception as e2:`
whose body is `print('%s' % e)` — but `e` is unbound there (Python 3 clears
an except target after its own clause, and the `OSError` clause did not run),
so the handler itself raises `NameError`; the `finally` block still calls
`task_done`, after which the `NameError` propagates and the thread dies. -/
def music_worker_item (tagReadRaises : Bool) (body : BodyExc) : ItemResult :=
  if tagReadRaises then ⟨false, true⟩
  else
    match body with
    | .ok => ⟨true, false⟩
    | .osError => ⟨true, false⟩
    | .otherExc => ⟨true, true⟩

end mssort

/-! ## `PhotoStation/pssort.py` -/

namespace pssort

/-- The calendar date parts of the resolved `CreateDate`
(`datetime.strptime(tags['CreateDate'], '%Y:%m:%d %H:%M:%S')` or the file's
ctime, pssort.py:126-130); only year, month and day are consulted by the
placement rules. -/
structure PhotoDate where
  year : Nat
  month : Nat
  day : Nat

/-- `strftime('%Y')`: the year, unpadded in glibc (4 digits for every real
date year 1000-9999). -/
def strfY (d : PhotoDate) : String := natStr d.year

/-- `strftime('%m')`: the month, zero-padded to two digits. -/
def strfMonth (d : PhotoDate) : String := zpad 2 d.month

/-- `strftime('%B')` under `locale.setlocale(locale.LC_ALL, 'de_DE')`
(pssort.py:60): the full German month name. -/
def strfB (d : PhotoDate) : String :=
  List.getD
    ["Januar", "Februar", "März", "April", "Mai", "Juni", "Juli",
     "August", "September", "Oktober", "November", "Dezember"]
    (d.month - 1) ""

/-- `re.match(r'\d{4} - ', s)`: the first seven characters are four digits,
a space, a dash and a space (`re.match` anchors at the start only). -/
def matchYearDash : List Char → Bool
  | a :: b :: c :: d :: e :: f :: g :: _ =>
    a.isDigit && b.isDigit && c.isDigit && d.isDigit &&
      e == ' ' && f == '-' && g == ' '
  | _ => false

/-- `get_file_tags(file, tags)` of pssort.py:90-113: identical to the
mssort.py reader except that an output starting with `"File not found"`
skips the parsing loop entirely, leaving every requested tag absent. -/
def get_file_tags (tags : List String) (output : String) : Option TagDict :=
  if startsWithL "File not found".data output.data then
    some (fillMissing tags [])
  else
    (assignLines tags (splitLines output) []).map (fillMissing tags)

/-- `get_new_path(file, tags)` of pssort.py:177-195, as a function of the
resolved `CreateDate` and of the comma-split, trimmed keyword list
`file_processor` prepares (pssort.py:156-161).  The `file` argument is
unused by the source as well. -/
def get_new_path (_file : String) (date : PhotoDate) (keywords : List String) : String :=
  let parentname : String :=
    match keywords.find? (fun k => startsWithL "parent:".data k.data) with
    | some k => String.mk (k.data.drop 7)
    | none => strfY date
  let albumname : String :=
    match keywords.find? (fun k => startsWithL "album:".data k.data) with
    | some k =>
      let a := String.mk (k.data.drop 6)
      if matchYearDash a.data then String.mk (a.data.drop 7) else a
    | none => strfB date
  let albumname2 : String :=
    if keywords.contains "hazel:no month" then albumname
    else strfMonth date ++ " " ++ albumname
  pyJoin (sanitize parentname) (sanitize albumname2)

/-- `re.match(r'\d{4}-\d{2}-\d{2}_', s)` (pssort.py:200), anchored at the
start. -/
def dateUnderscoreMatch : List Char → Bool
  | y1 :: y2 :: y3 :: y4 :: s1 :: m1 :: m2 :: s2 :: d1 :: d2 :: u :: _ =>
    y1.isDigit && y2.isDigit && y3.isDigit && y4.isDigit && s1 == '-' &&
      m1.isDigit && m2.isDigit && s2 == '-' && d1.isDigit && d2.isDigit && u == '_'
  | _ => false

/-- `tags['CreateDate'].date().isoformat()`: `YYYY-MM-DD`, all parts
zero-padded (a `datetime.date` year is between 1 and 9999). -/
def isoDate (d : PhotoDate) : String :=
  zpad 4 d.year ++ "-" ++ zpad 2 d.month ++ "-" ++ zpad 2 d.day

/-- `get_new_name(file, tags)` of pssort.py:198-203. -/
def get_new_name (file : String) (date : PhotoDate) : String :=
  let filename := String.mk (baseName file.data)
  if dateUnderscoreMatch filename.data then filename
  else isoDate date ++ "_" ++ filename

end pssort

/-! ## `PhotoStation/psthumbs.py` — thumbnail generation effects

`MediaConverter.media_converter` (psthumbs.py:228-254) is modelled by the
list of filesystem effects one call performs, in order.  External decoding
(PIL, dcraw, ffmpeg) is a collaborator; whether the image loads is the
parameter `decodeOk` (covering psthumbs.py:261-274, where a failed
`image.load()` is retried with truncated loading allowed and a second
failure only records the file in `failed_files`). -/

namespace psthumbs

/-- One filesystem action of a `media_converter` call. -/
inductive FsEffect
  | mkThumbsDir
  | recordFailure
  | writeFile (name : String)
  | writeTempFile
  | removeTempFile

/-- The thumbnail names of `THUMB_SIZES` (psthumbs.py:63-69), descending. -/
def THUMB_SIZES : List String :=
  ["SYNOPHOTO_THUMB_XL.jpg", "SYNOPHOTO_THUMB_L.jpg", "SYNOPHOTO_THUMB_B.jpg",
   "SYNOPHOTO_THUMB_M.jpg", "SYNOPHOTO_THUMB_S.jpg"]

/-- `PREVIEW_SIZE` (psthumbs.py:71). -/
def PREVIEW_SIZE : String := "SYNOPHOTO_THUMB_PREVIEW.jpg"

/-- `THUMB_SIZES_VIDEO = (THUMB_SIZES[0], THUMB_SIZES[3])` (psthumbs.py:73-76). -/
def THUMB_SIZES_VIDEO : List String :=
  ["SYNOPHOTO_THUMB_XL.jpg", "SYNOPHOTO_THUMB_M.jpg"]

/-- `PREVIEW_SIZE_VIDEO` (psthumbs.py:77). -/
def PREVIEW_SIZE_VIDEO : String := "SYNOPHOTO:FILM.flv"

/-- Which converter the extension dispatch of psthumbs.py:248-254 selects. -/
inductive MediaKind
  | image
  | raw
  | video
  | other

/-- `generate_thumbnails` (psthumbs.py:295-318): the five `THUMB_SIZES`
thumbnails are saved in order, then the padded preview image. -/
def generate_thumbnails : List FsEffect :=
  THUMB_SIZES.map .writeFile ++ [.writeFile PREVIEW_SIZE]

/-- `image_converter` (psthumbs.py:256-274): thumbnails on a successful load
(directly or after the truncated-image retry), otherwise the file is recorded
in `failed_files`. -/
def image_converter (decodeOk : Bool) : List FsEffect :=
  if decodeOk then generate_thumbnails else [.recordFailure]

/-- `raw_converter` (psthumbs.py:276-293): dcraw conversion then thumbnails,
any exception recorded in `failed_files`. -/
def raw_converter (decodeOk : Bool) : List FsEffect :=
  if decodeOk then generate_thumbnails else [.recordFailure]

/-- `video_converter` (psthumbs.py:342-382): the flv preview, a temporary
frame grab, the two video thumbnail sizes, then removal of the temporary
file. -/
def video_converter : List FsEffect :=
  [.writeFile PREVIEW_SIZE_VIDEO, .writeTempFile] ++
    THUMB_SIZES_VIDEO.map .writeFile ++ [.removeTempFile]

/-- The extension dispatch of psthumbs.py:248-254 (an extension outside all
three lists falls through with no effect). -/
def convert_by_ext (kind : MediaKind) (decodeOk : Bool) : List FsEffect :=
  match kind with
  | .image => image_converter decodeOk
  | .raw => raw_converter decodeOk
  | .video => video_converter
  | .other => []

/-- `media_converter` (psthumbs.py:228-254) as its list of filesystem
effects.  `thumbsDirIsDir`: whether `os.path.isdir(thumbs_dir)` holds on
entry; `force`: `cfg.force`; `mkdirOk`: whether `make_thumbs_dir` succeeds
(psthumbs.py:238-246 catches its exception, records the file in
`failed_files` and returns). -/
def media_converter (force thumbsDirIsDir mkdirOk : Bool) (kind : MediaKind)
    (decodeOk : Bool) : List FsEffect :=
  if thumbsDirIsDir then
    if !force then []
    else convert_by_ext kind decodeOk
  else
    if mkdirOk then .mkThumbsDir :: convert_by_ext kind decodeOk
    else [.recordFailure]

end psthumbs

/-! ## The mssort queue / worker-pool run

An operational model of `__main__` (mssort.py:194-242) together with
`music_worker` (mssort.py:151-185) and CPython's `queue.Queue` bookkeeping:
`put` appends to the FIFO and increments `unfinished_tasks` (sentinels
included), `task_done` decrements it, and `join()` returns only once
`unfinished_tasks == 0`.  Items are numbered; `f : Nat → Outcome` says how
the handling of each item ends (see `mssort.music_worker_item` for the
per-item control flow the outcomes summarise). -/

namespace msrun

/-- How the handling of one item ends. -/
inductive Outcome
  /-- No exception: file moved, `finally` calls `task_done`. -/
  | ok
  /-- `OSError` inside the `try`: caught and printed, `task_done` called,
  worker continues. -/
  | osError
  /-- Any other exception inside the `try`: the `except Exception as e2`
  handler evaluates the unbound name `e` and raises `NameError`; the
  `finally` still calls `task_done`, then the thread dies. -/
  | otherExc
  /-- An exception in `get_file_tags` (mssort.py:161, before the `try`):
  the thread dies without calling `task_done`. -/
  | tagExc

/-- The state of one worker thread. -/
inductive WStatus
  /-- Blocked in `MEDIA_QUEUE.get()`. -/
  | idle
  /-- Holding a dequeued item it has not yet finished. -/
  | busy (item : Nat)
  /-- Terminated by an uncaught exception. -/
  | dead
  /-- Exited the loop after dequeuing the `None` sentinel. -/
  | stopped

/-- Where the main thread stands. -/
inductive MainPhase
  /-- Walking the file tree and putting items (mssort.py:211-233). -/
  | producing
  /-- Blocked in `MEDIA_QUEUE.join()` (mssort.py:234). -/
  | joining
  /-- `join()` returned; `k` sentinels remain to be put (mssort.py:239-240). -/
  | released (k : Nat)
  /-- All worker threads joined (mssort.py:241-242). -/
  | finishedMain

/-- A snapshot of the run: the items main has still to put, the queue
contents (`none` is the sentinel), the queue's `unfinished_tasks` counter,
the worker states, the main thread's phase, and the log of dequeued items. -/
structure RunState where
  pending : List Nat
  queue : List (Option Nat)
  unfinished : Nat
  workers : List WStatus
  main : MainPhase
  dequeued : List Nat

/-- One interleaving step of the run. -/
inductive Step (f : Nat → Outcome) : RunState → RunState → Prop
  /-- Main puts the next found file (mssort.py:219/226/232):
  `Queue.put` appends and increments `unfinished_tasks`. -/
  | put (s : RunState) (x : Nat) (rest : List Nat) :
      s.main = .producing → s.pending = x :: rest →
      Step f s { s with pending := rest, queue := s.queue ++ [some x],
                        unfinished := s.unfinished + 1 }
  /-- Main has walked the whole tree and calls `join()` (mssort.py:234). -/
  | prodDone (s : RunState) :
      s.main = .producing → s.pending = [] →
      Step f s { s with main := .joining }
  /-- `join()` returns: only possible once `unfinished_tasks` is zero. -/
  | joinRelease (s : RunState) :
      s.main = .joining → s.unfinished = 0 →
      Step f s { s with main := .released s.workers.length }
  /-- Main puts one `None` sentinel per worker (mssort.py:239-240); `put`
  increments `unfinished_tasks` for sentinels too. -/
  | putSentinel (s : RunState) (k : Nat) :
      s.main = .released (k + 1) →
      Step f s { s with queue := s.queue ++ [none],
                        unfinished := s.unfinished + 1, main := .released k }
  /-- Main joins every worker thread (mssort.py:241-242); joining a thread
  already dead returns at once. -/
  | mainExit (s : RunState) :
      s.main = .released 0 →
      (∀ w ∈ s.workers, w = WStatus.stopped ∨ w = WStatus.dead) →
      Step f s { s with main := .finishedMain }
  /-- An idle worker dequeues a genuine item (mssort.py:155). -/
  | dequeueItem (s : RunState) (i x : Nat) (rest : List (Option Nat)) :
      s.queue = some x :: rest → s.workers[i]? = some WStatus.idle →
      Step f s { s with queue := rest, workers := s.workers.set i (.busy x),
                        dequeued := s.dequeued ++ [x] }
  /-- An idle worker dequeues the sentinel and breaks out of its loop
  (mssort.py:156-157) without calling `task_done` for it. -/
  | dequeueSentinel (s : RunState) (i : Nat) (rest : List (Option Nat)) :
      s.queue = none :: rest → s.workers[i]? = some WStatus.idle →
      Step f s { s with queue := rest, workers := s.workers.set i .stopped }
  /-- A worker finishes an item whose handling raised nothing or only a
  caught `OSError`: `finally` calls `task_done`, the worker loops. -/
  | finishOk (s : RunState) (i x : Nat) :
      s.workers[i]? = some (WStatus.busy x) → (f x = .ok ∨ f x = .osError) →
      Step f s { s with workers := s.workers.set i .idle,
                        unfinished := s.unfinished - 1 }
  /-- A worker finishes an item whose handling raised a non-`OSError`:
  `finally` calls `task_done`, then the `NameError` from the broken handler
  kills the thread. -/
  | finishDies (s : RunState) (i x : Nat) :
      s.workers[i]? = some (WStatus.busy x) → f x = .otherExc →
      Step f s { s with workers := s.workers.set i .dead,
                        unfinished := s.unfinished - 1 }
  /-- `get_file_tags` raises before the `try` block: the thread dies without
  `task_done`. -/
  | tagReadDies (s : RunState) (i x : Nat) :
      s.workers[i]? = some (WStatus.busy x) → f x = .tagExc →
      Step f s { s with workers := s.workers.set i .dead }

/-- Finitely many steps. -/
inductive Steps (f : Nat → Outcome) : RunState → RunState → Prop
  | refl (s : RunState) : Steps f s s
  | tail (s t u : RunState) : Steps f s t → Step f t u → Steps f s u

/-- The state in which `__main__` starts the run: `items` found by the tree
walk still to put, an empty queue, `w` idle worker threads. -/
def initState (items : List Nat) (w : Nat) : RunState :=
  ⟨items, [], 0, List.replicate w .idle, .producing, []⟩

end msrun


/-! ## Claim-side definitions

Definitions that state the claims' own formulas (to be compared with the
embedded source functions), the concrete inputs of counterexamples, and the
predicates the claims' properties are phrased with. -/

/-- No two consecutive spaces anywhere in the list. -/
def hasDoubleSpace : List Char → Bool
  | [] => false
  | [_] => false
  | a :: b :: rest => (a == ' ' && b == ' ') || hasDoubleSpace (b :: rest)

/-- Claim C5's artist rule: Band if present, else "Compilation" when the
Compilation tag equals "1" or "Yes", else Artist if present, else
"Unknown". -/
def C5artist (tags : mssort.MusicTags) : String :=
  match tags.Band with
  | some b => b
  | none =>
    if tags.Compilation == some "1" || tags.Compilation == some "Yes" then
      "Compilation"
    else
      match tags.Artist with
      | some a => a
      | none => "Unknown"

/-- Claim C5's album rule: Album if present, else "Unknown". -/
def C5album (tags : mssort.MusicTags) : String :=
  match tags.Album with
  | some a => a
  | none => "Unknown"

/-- Claim C5's letter rule: the uppercase of the first alphanumeric
character of the artist after lowercasing and removing the substring
"the", or "#" when no alphanumeric character remains. -/
def C5letter (tags : mssort.MusicTags) : String :=
  match ((replaceAll "the".data [] ((C5artist tags).data.map Char.toLower)).filter pyIsAlnum).head? with
  | none => "#"
  | some c => String.mk [c.toUpper]

/-- Claim C6's parent rule: the text after "parent:" of the first such
keyword, else the year of CreateDate. -/
def C6parent (date : pssort.PhotoDate) (keywords : List String) : String :=
  match keywords.find? (fun k => startsWithL "parent:".data k.data) with
  | some k => String.mk (k.data.drop 7)
  | none => pssort.strfY date

/-- Claim C6's album rule: the text after "album:" of the first such keyword,
a leading "NNNN - " pattern stripped if it matches, else the full month name
of CreateDate. -/
def C6albumBase (date : pssort.PhotoDate) (keywords : List String) : String :=
  match keywords.find? (fun k => startsWithL "album:".data k.data) with
  | some k =>
    let a := String.mk (k.data.drop 6)
    if pssort.matchYearDash a.data then String.mk (a.data.drop 7) else a
  | none => pssort.strfB date

/-- Claim C6's month rule: unless some keyword equals "hazel:no month"
exactly, the two-digit month number and a space are prepended to the
album. -/
def C6album (date : pssort.PhotoDate) (keywords : List String) : String :=
  if keywords.contains "hazel:no month" then C6albumBase date keywords
  else pssort.strfMonth date ++ " " ++ C6albumBase date keywords

/-- Claim C7's filename rule: when the original filename does not already
start with a "YYYY-MM-DD_" pattern, prefix the ISO date of CreateDate and an
underscore; otherwise leave it unchanged. -/
def C7name (file : String) (date : pssort.PhotoDate) : String :=
  let original := String.mk (baseName file.data)
  if pssort.dateUnderscoreMatch original.data then original
  else pssort.isoDate date ++ "_" ++ original

/-- The ranges a Python `datetime.date` guarantees for the resolved
CreateDate: year 1-9999, month 1-12, day 1-31. -/
def validDate (d : pssort.PhotoDate) : Prop :=
  1 ≤ d.year ∧ d.year ≤ 9999 ∧ 1 ≤ d.month ∧ d.month ≤ 12 ∧ 1 ≤ d.day ∧ d.day ≤ 31

/-- The tag-to-value association claim C8 states: the i-th requested tag gets
the i-th output line (absent for a `"-"` line), and every tag beyond the
last line is absent. -/
def specTagMap : List String → List String → TagDict
  | [], _ => []
  | t :: ts, [] => (t, none) :: specTagMap ts []
  | t :: ts, line :: ls => (t, if line == "-" then none else some line) :: specTagMap ts ls

/-- The pairs the first loop of `get_file_tags` produces, in order: requested
tags zipped with output lines (a `"-"` line standing for absent). -/
def zipAssign : List String → List String → TagDict
  | _, [] => []
  | [], _ :: _ => []
  | t :: ts, line :: ls =>
    (t, if line == "-" then none else some line) :: zipAssign ts ls

/-- The TagSet of C4's failing input: Track="5/12", PartOfSet absent,
DiscNumber="2 of 2", Title="T". -/
def c4Tags : mssort.MusicTags :=
  ⟨none, none, none, some "T", some "5/12", none, none, some "2 of 2", none⟩

/-- C1's failing run: item 0's handling raises a non-`OSError` exception
(say `int('x')`), item 1 is well-behaved. -/
def c1Outcome : Nat → msrun.Outcome := fun n => if n = 0 then .otherExc else .ok

/-- The state that run reaches with one worker: item 0 was dequeued and
marked done, the `NameError` of the broken handler killed the only worker,
item 1 sits in the queue forever and main is still blocked in `join()`. -/
def c1Stuck : msrun.RunState :=
  ⟨[], [some 1], 1, [.dead], .joining, [0]⟩

/-! ## Theorems settling the claims -/

/-- C5: for every music TagSet the destination directory equals
join(letter, sanitize(artist), sanitize(album)) with artist, album and
letter as the claim states them. -/
theorem C5_music_directory (f : String) (tags : mssort.MusicTags) :
    mssort.get_new_path f tags =
      pyJoin (pyJoin (C5letter tags) (sanitize (C5artist tags)))
        (sanitize (C5album tags)) := rfl

/-- C6: for every resolved photo TagSet the destination directory equals
join(sanitize(parent), sanitize(album)) with parent and album as the claim
states them. -/
theorem C6_photo_directory (f : String) (date : pssort.PhotoDate)
    (keywords : List String) :
    pssort.get_new_path f date keywords =
      pyJoin (sanitize (C6parent date keywords)) (sanitize (C6album date keywords)) := by
  unfold pssort.get_new_path C6album C6albumBase C6parent
  rcases h : keywords.contains "hazel:no month" <;> simp [h]

/-- C7: for every photo file path and resolved CreateDate the new filename
follows the claim's rule. -/
theorem C7_photo_filename (file : String) (date : pssort.PhotoDate) :
    pssort.get_new_name file date = C7name file date := rfl

/-- C10: when the thumbnail directory of an item already exists, a run
without the force flag performs no filesystem effect at all for that item
(nothing generated, nothing overwritten); with the force flag set, the same
conversion effects as for a fresh item are performed. -/
theorem C10_force_skip (mkdirOk : Bool) (kind : psthumbs.MediaKind) (decodeOk : Bool) :
    psthumbs.media_converter false true mkdirOk kind decodeOk = [] ∧
    psthumbs.media_converter true true mkdirOk kind decodeOk =
      psthumbs.convert_by_ext kind decodeOk := ⟨rfl, rfl⟩

/-- C2 is a code_bug: this theorem evaluates the embedded `music_worker`
iteration at the two failing situations.  A non-`OSError` exception inside
the `try` block (say the `ValueError` of `int('x')` on a malformed
`PartOfSet` tag) reaches the `except Exception as e2:` handler, whose body
`print('%s' % e)` evaluates the unbound name `e` and raises `NameError`:
`task_done` still runs (the `finally`), but the worker thread dies,
contradicting the claim that no per-item exception terminates the worker.
An exception in the tag reading happens before the `try`, so the thread
dies without `task_done` ever being called for the item. -/
theorem C2_worker_death_eval :
    mssort.music_worker_item false .otherExc = ⟨true, true⟩ ∧
    mssort.music_worker_item true .ok = ⟨false, true⟩ := ⟨rfl, rfl⟩

/-- C4 is a code_bug: the claim (like the spec) says a PartOfSet/DiscNumber
value is consulted for the disc prefix, but the guard on mssort.py:136 tests
only the PartOfSet tag, so the value derived from DiscNumber on lines
131-132 is dead.  With Track="5/12", DiscNumber="2 of 2" and no PartOfSet
the code produces "05 T.mp3" where the claim requires "2-05 T.mp3". -/
theorem C4_discnumber_dead_eval :
    mssort.get_new_name "x.mp3" c4Tags = some "05 T.mp3" ∧
    mssort.get_new_name "x.mp3" c4Tags ≠ some "2-05 T.mp3" := by
  exact ⟨rfl, by decide⟩

/-- C1 is a code_bug: a run with two enqueued items and one worker, where
item 0's handling raises a non-`OSError` exception, reaches a state from
which no step is possible at all: item 1 was never dequeued (the log still
reads `[0]`) and `join()` has not released the main thread — so "every
enqueued item is dequeued exactly once" and "`join()` always returns once
all items are accounted for" both fail on the code. -/
theorem C1_join_barrier_hangs :
    msrun.Steps c1Outcome (msrun.initState [0, 1] 1) c1Stuck ∧
    (∀ t, ¬ msrun.Step c1Outcome c1Stuck t) ∧
    c1Stuck.dequeued = [0] ∧ c1Stuck.main = .joining := by
  refine ⟨?_, ?_, rfl, rfl⟩
  · have h1 : msrun.Step c1Outcome ⟨[0, 1], [], 0, [.idle], .producing, []⟩
        ⟨[1], [some 0], 1, [.idle], .producing, []⟩ := .put _ 0 [1] rfl rfl
    have h2 : msrun.Step c1Outcome ⟨[1], [some 0], 1, [.idle], .producing, []⟩
        ⟨[], [some 0, some 1], 2, [.idle], .producing, []⟩ := .put _ 1 [] rfl rfl
    have h3 : msrun.Step c1Outcome ⟨[], [some 0, some 1], 2, [.idle], .producing, []⟩
        ⟨[], [some 0, some 1], 2, [.idle], .joining, []⟩ := .prodDone _ rfl rfl
    have h4 : msrun.Step c1Outcome ⟨[], [some 0, some 1], 2, [.idle], .joining, []⟩
        ⟨[], [some 1], 2, [.busy 0], .joining, [0]⟩ := .dequeueItem _ 0 0 [some 1] rfl rfl
    have h5 : msrun.Step c1Outcome ⟨[], [some 1], 2, [.busy 0], .joining, [0]⟩
        c1Stuck := .finishDies _ 0 0 rfl rfl
    exact .tail _ _ _ (.tail _ _ _ (.tail _ _ _ (.tail _ _ _
      (.tail _ _ _ (.refl _) h1) h2) h3) h4) h5
  · intro t h
    cases h with
    | put x rest h1 h2 => simp [c1Stuck] at h1
    | prodDone h1 h2 => simp [c1Stuck] at h1
    | joinRelease h1 h2 => simp [c1Stuck] at h2
    | putSentinel k h1 => simp [c1Stuck] at h1
    | mainExit h1 h2 => simp [c1Stuck] at h1
    | dequeueItem i x rest h1 h2 => cases i <;> simp [c1Stuck] at h2
    | dequeueSentinel i rest h1 h2 => simp [c1Stuck] at h1
    | finishOk i x h1 h2 => cases i <;> simp [c1Stuck] at h1
    | finishDies i x h1 h2 => cases i <;> simp [c1Stuck] at h1
    | tagReadDies i x h1 h2 => cases i <;> simp [c1Stuck] at h1

/-! ### Lemmas about the sanitizer (claim C3) -/

theorem ne_space_of_no_space {c : Char} (h : pyIsSpace c = false) : c ≠ ' ' := by
  intro hc; subst hc; exact absurd h (by decide)

/-- Every word `splitWsAux` emits is nonempty and free of whitespace. -/
theorem splitWsAux_words {l acc : List Char}
    (hacc : ∀ c ∈ acc, pyIsSpace c = false) :
    ∀ w ∈ splitWsAux l acc, w ≠ [] ∧ ∀ c ∈ w, pyIsSpace c = false := by
  induction l generalizing acc with
  | nil =>
    intro w hw
    cases hje : acc.isEmpty with
    | true => simp [splitWsAux, hje] at hw
    | false =>
      simp [splitWsAux, hje] at hw
      subst hw
      refine ⟨?_, hacc⟩
      intro hnil
      rw [hnil] at hje
      simp at hje
  | cons c rest ih =>
    intro w hw
    cases hsp : pyIsSpace c with
    | true =>
      cases hje : acc.isEmpty with
      | true =>
        simp only [splitWsAux, hsp, hje, if_true] at hw
        exact ih (by simp) w hw
      | false =>
        simp only [splitWsAux, hsp, hje, if_true, if_false] at hw
        rcases List.mem_cons.mp hw with rfl | hw
        · refine ⟨?_, hacc⟩
          intro hnil
          rw [hnil] at hje
          simp at hje
        · exact ih (by simp) w hw
    | false =>
      simp only [splitWsAux, hsp, if_false] at hw
      refine ih ?_ w hw
      intro d hd
      rcases List.mem_append.mp hd with h | h
      · exact hacc d h
      · simp at h; subst h; exact hsp

/-- Every character of a word `splitWsAux` emits comes from the accumulator
or from the input. -/
theorem splitWsAux_chars {l acc : List Char} :
    ∀ w ∈ splitWsAux l acc, ∀ c ∈ w, c ∈ acc ∨ c ∈ l := by
  induction l generalizing acc with
  | nil =>
    intro w hw c hc
    cases hje : acc.isEmpty with
    | true => simp [splitWsAux, hje] at hw
    | false =>
      simp [splitWsAux, hje] at hw
      subst hw
      exact Or.inl hc
  | cons c0 rest ih =>
    intro w hw c hc
    cases hsp : pyIsSpace c0 with
    | true =>
      cases hje : acc.isEmpty with
      | true =>
        simp only [splitWsAux, hsp, hje, if_true] at hw
        rcases ih w hw c hc with h | h
        · simp at h
        · exact Or.inr (List.mem_cons_of_mem _ h)
      | false =>
        simp only [splitWsAux, hsp, hje, if_true, if_false] at hw
        rcases List.mem_cons.mp hw with rfl | hw
        · exact Or.inl hc
        · rcases ih w hw c hc with h | h
          · simp at h
          · exact Or.inr (List.mem_cons_of_mem _ h)
    | false =>
      simp only [splitWsAux, hsp, if_false] at hw
      rcases ih w hw c hc with h | h
      · rcases List.mem_append.mp h with h | h
        · exact Or.inl h
        · simp at h; subst h; exact Or.inr (List.mem_cons_self _ _)
      · exact Or.inr (List.mem_cons_of_mem _ h)

/-- `splitWsAux` on whitespace-free input just finishes the current word. -/
theorem splitWsAux_no_space {l : List Char}
    (hl : ∀ c ∈ l, pyIsSpace c = false) :
    ∀ acc, splitWsAux l acc = if (acc ++ l).isEmpty then [] else [acc ++ l] := by
  induction l with
  | nil => intro acc; simp [splitWsAux]
  | cons c rest ih =>
    intro acc
    have hc : pyIsSpace c = false := hl c (by simp)
    rw [show splitWsAux (c :: rest) acc = splitWsAux rest (acc ++ [c]) by
      simp [splitWsAux, hc]]
    rw [ih (fun d hd => hl d (List.mem_cons_of_mem _ hd))]
    simp

/-- Scanning a whitespace-free word extends the accumulator. -/
theorem splitWsAux_word_append {w : List Char}
    (hw : ∀ c ∈ w, pyIsSpace c = false) :
    ∀ l acc, splitWsAux (w ++ l) acc = splitWsAux l (acc ++ w) := by
  induction w with
  | nil => intro l acc; simp
  | cons c w2 ih =>
    intro l acc
    have hc : pyIsSpace c = false := hw c (by simp)
    rw [show splitWsAux ((c :: w2) ++ l) acc = splitWsAux (w2 ++ l) (acc ++ [c]) by
      simp [splitWsAux, hc]]
    rw [ih (fun d hd => hw d (List.mem_cons_of_mem _ hd))]
    simp

/-- Splitting the space-joined words recovers them, for nonempty
whitespace-free words. -/
theorem pySplit_joinWords {ws : List (List Char)}
    (h : ∀ w ∈ ws, w ≠ [] ∧ ∀ c ∈ w, pyIsSpace c = false) :
    pySplit (joinWords ws) = ws := by
  induction ws with
  | nil => rfl
  | cons w ws2 ih =>
    obtain ⟨hne, hns⟩ := h w (List.mem_cons_self _ _)
    cases ws2 with
    | nil =>
      show splitWsAux (joinWords [w]) [] = [w]
      rw [show joinWords [w] = w from rfl, splitWsAux_no_space hns]
      simp [hne]
    | cons w2 ws3 =>
      show splitWsAux (joinWords (w :: w2 :: ws3)) [] = w :: w2 :: ws3
      rw [show joinWords (w :: w2 :: ws3) = w ++ ' ' :: joinWords (w2 :: ws3) from rfl]
      rw [splitWsAux_word_append hns]
      simp only [List.nil_append]
      have hje : w.isEmpty = false := by
        cases w with
        | nil => exact absurd rfl hne
        | cons a t => rfl
      simp only [splitWsAux, show pyIsSpace ' ' = true from rfl, hje, if_true, if_false]
      exact congrArg (w :: ·) (ih (fun u hu => h u (List.mem_cons_of_mem _ hu)))

/-- Every character of the joined words is a space or comes from a word. -/
theorem mem_joinWords {ws : List (List Char)} {c : Char}
    (h : c ∈ joinWords ws) : c = ' ' ∨ ∃ w ∈ ws, c ∈ w := by
  induction ws with
  | nil => simp [joinWords] at h
  | cons w ws2 ih =>
    cases ws2 with
    | nil => exact Or.inr ⟨w, List.mem_cons_self _ _, h⟩
    | cons w2 ws3 =>
      rw [show joinWords (w :: w2 :: ws3) = w ++ ' ' :: joinWords (w2 :: ws3) from rfl] at h
      rcases List.mem_append.mp h with h | h
      · exact Or.inr ⟨w, List.mem_cons_self _ _, h⟩
      · rcases List.mem_cons.mp h with rfl | h
        · exact Or.inl rfl
        · rcases ih h with h | ⟨u, hu, hcu⟩
          · exact Or.inl h
          · exact Or.inr ⟨u, List.mem_cons_of_mem _ hu, hcu⟩

/-- The joined words of a nonempty list of nonempty words are nonempty. -/
theorem joinWords_ne_nil {ws : List (List Char)} (hne : ws ≠ [])
    (h : ∀ w ∈ ws, w ≠ []) : joinWords ws ≠ [] := by
  cases ws with
  | nil => exact absurd rfl hne
  | cons w ws2 =>
    cases ws2 with
    | nil => exact h w (List.mem_cons_self _ _)
    | cons w2 ws3 =>
      rw [show joinWords (w :: w2 :: ws3) = w ++ ' ' :: joinWords (w2 :: ws3) from rfl]
      simp

/-- The joined words do not start with a space. -/
theorem joinWords_head {ws : List (List Char)}
    (h : ∀ w ∈ ws, w ≠ [] ∧ ∀ c ∈ w, pyIsSpace c = false) :
    (joinWords ws).head? ≠ some ' ' := by
  cases ws with
  | nil => simp [joinWords]
  | cons w ws2 =>
    obtain ⟨hne, hns⟩ := h w (List.mem_cons_self _ _)
    obtain ⟨a, t, rfl⟩ := List.exists_cons_of_ne_nil hne
    have ha : a ≠ ' ' := ne_space_of_no_space (hns a (List.mem_cons_self _ _))
    cases ws2 with
    | nil =>
      simp [joinWords, ha]
    | cons w2 ws3 =>
      rw [show joinWords ((a :: t) :: w2 :: ws3) = (a :: t) ++ ' ' :: joinWords (w2 :: ws3) from rfl]
      simp [ha]

/-- The joined words do not end with a space. -/
theorem joinWords_getLast {ws : List (List Char)}
    (h : ∀ w ∈ ws, w ≠ [] ∧ ∀ c ∈ w, pyIsSpace c = false) :
    (joinWords ws).getLast? ≠ some ' ' := by
  induction ws with
  | nil => simp [joinWords]
  | cons w ws2 ih =>
    obtain ⟨hne, hns⟩ := h w (List.mem_cons_self _ _)
    cases ws2 with
    | nil =>
      show w.getLast? ≠ some ' '
      intro hlast
      have : ' ' ∈ w := List.mem_of_mem_getLast? hlast
      exact absurd (hns ' ' this) (by decide)
    | cons w2 ws3 =>
      rw [show joinWords (w :: w2 :: ws3) = w ++ ' ' :: joinWords (w2 :: ws3) from rfl]
      have htail := ih (fun u hu => h u (List.mem_cons_of_mem _ hu))
      have hJne : joinWords (w2 :: ws3) ≠ [] :=
        joinWords_ne_nil (by simp) (fun u hu => (h u (List.mem_cons_of_mem _ hu)).1)
      obtain ⟨j, t, hJ⟩ := List.exists_cons_of_ne_nil hJne
      rw [hJ]
      rw [List.getLast?_append, List.getLast?_cons_cons]
      rw [hJ] at htail
      simp only [Option.or]
      cases hjt : (j :: t).getLast? with
      | none => simp at hjt
      | some b =>
        rw [hjt] at htail
        simpa using htail

theorem hasDoubleSpace_cons_of_ne {a : Char} {l : List Char} (ha : a ≠ ' ') :
    hasDoubleSpace (a :: l) = hasDoubleSpace l := by
  cases l with
  | nil => rfl
  | cons b t => simp [hasDoubleSpace, ha]

theorem hasDoubleSpace_word_append {w l : List Char}
    (hw : ∀ c ∈ w, pyIsSpace c = false) :
    hasDoubleSpace (w ++ l) = hasDoubleSpace l := by
  induction w with
  | nil => rfl
  | cons c w2 ih =>
    have hc : c ≠ ' ' := ne_space_of_no_space (hw c (List.mem_cons_self _ _))
    rw [List.cons_append, hasDoubleSpace_cons_of_ne hc]
    exact ih (fun d hd => hw d (List.mem_cons_of_mem _ hd))

/-- The joined words contain no run of two spaces. -/
theorem joinWords_no_double {ws : List (List Char)}
    (h : ∀ w ∈ ws, w ≠ [] ∧ ∀ c ∈ w, pyIsSpace c = false) :
    hasDoubleSpace (joinWords ws) = false := by
  induction ws with
  | nil => rfl
  | cons w ws2 ih =>
    obtain ⟨hne, hns⟩ := h w (List.mem_cons_self _ _)
    cases ws2 with
    | nil =>
      have := hasDoubleSpace_word_append (l := []) hns
      simpa using this
    | cons w2 ws3 =>
      rw [show joinWords (w :: w2 :: ws3) = w ++ ' ' :: joinWords (w2 :: ws3) from rfl]
      rw [hasDoubleSpace_word_append hns]
      have hJne : joinWords (w2 :: ws3) ≠ [] :=
        joinWords_ne_nil (by simp) (fun u hu => (h u (List.mem_cons_of_mem _ hu)).1)
      obtain ⟨j, t, hJ⟩ := List.exists_cons_of_ne_nil hJne
      have hj : j ≠ ' ' := by
        have hh : (joinWords (w2 :: ws3)).head? ≠ some ' ' :=
          joinWords_head (fun u hu => h u (List.mem_cons_of_mem _ hu))
        rw [hJ] at hh
        simpa using hh
      have ht : hasDoubleSpace (j :: t) = false := by
        rw [← hJ]; exact ih (fun u hu => h u (List.mem_cons_of_mem _ hu))
      rw [hJ]
      simp [hasDoubleSpace, hj, ht]

/-- C3: the sanitizer is idempotent, its output holds only alphanumeric
characters, space, period and underscore, does not start or end with a
space, and has no run of two consecutive spaces.  (Totality and determinism
hold by construction: `sanitize` is a total function.) -/
theorem C3_sanitize_contract (s : String) :
    sanitize (sanitize s) = sanitize s ∧
    (∀ c ∈ (sanitize s).data, pyIsAlnum c = true ∨ c = ' ' ∨ c = '.' ∨ c = '_') ∧
    (sanitize s).data.head? ≠ some ' ' ∧
    (sanitize s).data.getLast? ≠ some ' ' ∧
    hasDoubleSpace (sanitize s).data = false := by
  have hwords : ∀ w ∈ pySplit (s.data.filter keepChar),
      w ≠ [] ∧ ∀ c ∈ w, pyIsSpace c = false :=
    splitWsAux_words (by simp)
  have hchars : ∀ w ∈ pySplit (s.data.filter keepChar), ∀ c ∈ w, keepChar c = true := by
    intro w hw c hc
    rcases splitWsAux_chars w hw c hc with h | h
    · simp at h
    · exact (List.mem_filter.mp h).2
  have hdata : (sanitize s).data = joinWords (pySplit (s.data.filter keepChar)) := rfl
  refine ⟨?_, ?_, ?_, ?_, ?_⟩
  · show String.mk (joinWords (pySplit ((sanitize s).data.filter keepChar))) = sanitize s
    rw [hdata]
    have hfilter : (joinWords (pySplit (s.data.filter keepChar))).filter keepChar =
        joinWords (pySplit (s.data.filter keepChar)) := by
      rw [List.filter_eq_self]
      intro c hc
      rcases mem_joinWords hc with rfl | ⟨w, hw, hcw⟩
      · rfl
      · exact hchars w hw c hcw
    rw [hfilter, pySplit_joinWords hwords]
    rfl
  · intro c hc
    rw [hdata] at hc
    rcases mem_joinWords hc with rfl | ⟨w, hw, hcw⟩
    · exact Or.inr (Or.inl rfl)
    · have hk := hchars w hw c hcw
      simp only [keepChar, Bool.or_eq_true, beq_iff_eq] at hk
      tauto
  · rw [hdata]; exact joinWords_head hwords
  · rw [hdata]; exact joinWords_getLast hwords
  · rw [hdata]; exact joinWords_no_double hwords

/-! ### Lemmas about the tag reader (claim C8) -/

theorem bool_eq_of_iff {a b : Bool} (h : a = true ↔ b = true) : a = b := by
  cases a <;> cases b <;> simp_all

theorem dictHasKey_append {k : String} {d1 d2 : TagDict} :
    dictHasKey k (d1 ++ d2) = (dictHasKey k d1 || dictHasKey k d2) := by
  induction d1 with
  | nil => rfl
  | cons p rest ih =>
    cases p with
    | mk k2 v2 => simp [dictHasKey, ih, Bool.or_assoc]

/-- Inserting a fresh key into a dict appends it. -/
theorem dictInsert_fresh {k : String} {v : Option String} {d : TagDict}
    (h : dictHasKey k d = false) : dictInsert k v d = d ++ [(k, v)] := by
  induction d with
  | nil => rfl
  | cons p rest ih =>
    cases p with
    | mk k2 v2 =>
      rw [show dictHasKey k ((k2, v2) :: rest) = ((k2 == k) || dictHasKey k rest) from rfl,
        Bool.or_eq_false_iff] at h
      simp [dictInsert, h.1, ih h.2]

/-- The assignment loop, for distinct tags none of which is in the dict yet
and at most as many lines as tags: it appends the tag/line pairs. -/
theorem assignLines_eq {lines tags : List String} {d : TagDict}
    (hlen : lines.length ≤ tags.length) (hnodup : tags.Nodup)
    (hfresh : ∀ t ∈ tags, dictHasKey t d = false) :
    assignLines tags lines d = some (d ++ zipAssign tags lines) := by
  induction lines generalizing tags d with
  | nil => cases tags <;> simp [assignLines, zipAssign]
  | cons line ls ih =>
    cases tags with
    | nil => simp at hlen
    | cons t ts =>
      have hfr : dictHasKey t d = false := hfresh t (by simp)
      have hfresh2 : ∀ u ∈ ts,
          dictHasKey u (d ++ [(t, if line == "-" then none else some line)]) = false := by
        intro u hu
        have hu1 : dictHasKey u d = false := hfresh u (List.mem_cons_of_mem _ hu)
        have hne : t ≠ u := fun heq => (List.nodup_cons.mp hnodup).1 (heq ▸ hu)
        have hu2 : (t == u) = false := by simpa using hne
        rw [dictHasKey_append]
        simp [dictHasKey, hu1, hu2]
      rw [show assignLines (t :: ts) (line :: ls) d =
        assignLines ts ls (dictInsert t (if line == "-" then none else some line) d) from rfl]
      rw [dictInsert_fresh hfr]
      rw [ih (by simpa using hlen) hnodup.of_cons hfresh2]
      simp [zipAssign]

/-- The fill loop, for distinct tags: it appends an absent entry for every
tag the dict does not hold yet, in request order. -/
theorem fillMissing_eq {tags : List String} {d : TagDict} (hnodup : tags.Nodup) :
    fillMissing tags d =
      d ++ (tags.filter (fun t => !dictHasKey t d)).map (fun t => (t, none)) := by
  induction tags generalizing d with
  | nil => simp [fillMissing]
  | cons t ts ih =>
    rw [show fillMissing (t :: ts) d =
      fillMissing ts (if dictHasKey t d then d else d ++ [(t, none)]) from rfl]
    cases hk : dictHasKey t d with
    | true =>
      rw [if_pos rfl]
      rw [ih hnodup.of_cons]
      simp [List.filter_cons, hk]
    | false =>
      rw [if_neg (by simp)]
      rw [ih hnodup.of_cons]
      have hcongr : ts.filter (fun u => !dictHasKey u (d ++ [(t, none)])) =
          ts.filter (fun u => !dictHasKey u d) := by
        apply List.filter_congr
        intro u hu
        have hne : t ≠ u := fun heq => (List.nodup_cons.mp hnodup).1 (heq ▸ hu)
        have hu2 : (t == u) = false := by simpa using hne
        simp [dictHasKey_append, dictHasKey, hu2]
      rw [hcongr]
      simp [List.filter_cons, hk]

/-- A key is in the zipped pairs exactly when it is one of the first
`lines.length` requested tags. -/
theorem dictHasKey_zipAssign_iff {tags lines : List String} {u : String}
    (hlen : lines.length ≤ tags.length) :
    dictHasKey u (zipAssign tags lines) = true ↔ u ∈ tags.take lines.length := by
  induction tags generalizing lines with
  | nil =>
    cases lines with
    | nil => simp [zipAssign, dictHasKey]
    | cons line ls => simp at hlen
  | cons t ts ih =>
    cases lines with
    | nil => simp [zipAssign, dictHasKey]
    | cons line ls =>
      rw [show zipAssign (t :: ts) (line :: ls) =
        (t, if line == "-" then none else some line) :: zipAssign ts ls from rfl]
      rw [show dictHasKey u ((t, if line == "-" then none else some line) :: zipAssign ts ls) =
        ((t == u) || dictHasKey u (zipAssign ts ls)) from rfl]
      rw [Bool.or_eq_true, beq_iff_eq, ih (by simpa using hlen)]
      rw [show (line :: ls).length = ls.length + 1 from rfl, List.take_succ_cons,
        List.mem_cons]
      constructor
      · rintro (h | h)
        · exact Or.inl h.symm
        · exact Or.inr h
      · rintro (h | h)
        · exact Or.inl h.symm
        · exact Or.inr h

/-- Filtering a list for the elements outside its own prefix leaves the
matching suffix, for distinct elements. -/
theorem filter_not_mem_split {pre suf tags : List String}
    (heq : tags = pre ++ suf) (hdisj : ∀ t ∈ suf, t ∉ pre) :
    tags.filter (fun t => !decide (t ∈ pre)) = suf := by
  subst heq
  rw [List.filter_append]
  have h1 : pre.filter (fun t => !decide (t ∈ pre)) = [] := by
    rw [List.filter_eq_nil_iff]
    intro a ha
    simp [ha]
  have h2 : suf.filter (fun t => !decide (t ∈ pre)) = suf := by
    rw [List.filter_eq_self]
    intro a ha
    simp [hdisj a ha]
  rw [h1, h2, List.nil_append]

theorem specTagMap_nil_lines {tags : List String} :
    specTagMap tags [] = tags.map (fun t => (t, none)) := by
  induction tags with
  | nil => rfl
  | cons t ts ih => simp [specTagMap, ih]

/-- The claimed tag map is the zipped pairs followed by absent entries for
the remaining tags. -/
theorem specTagMap_decomp {tags lines : List String}
    (hlen : lines.length ≤ tags.length) :
    specTagMap tags lines =
      zipAssign tags lines ++ (tags.drop lines.length).map (fun t => (t, none)) := by
  induction tags generalizing lines with
  | nil =>
    cases lines with
    | nil => rfl
    | cons line ls => simp at hlen
  | cons t ts ih =>
    cases lines with
    | nil => simp [specTagMap_nil_lines, zipAssign]
    | cons line ls => simp [specTagMap, zipAssign, ih (by simpa using hlen)]

/-- C8, as amended: for distinct requested tags, (i) the claimed tag map has
exactly one key per requested tag in request order; (ii) when the tool's
output has at most as many lines as tags were requested, the MusicStation
reader returns exactly the claimed map (a `"-"` line absent, missing lines
absent), and (iii) so does the PhotoStation reader when the output is not a
"File not found" report; (iv) on a "File not found" report the PhotoStation
reader returns the all-absent mapping. -/
theorem specTagMap_keys (tags : List String) :
    ∀ lines, (specTagMap tags lines).map Prod.fst = tags := by
  induction tags with
  | nil => intro lines; rfl
  | cons t ts ih => intro lines; cases lines <;> simp [specTagMap, ih]

theorem C8_tag_reader (tags : List String) (output : String)
    (hnodup : tags.Nodup) :
    (specTagMap tags (splitLines output)).map Prod.fst = tags ∧
    ((splitLines output).length ≤ tags.length →
      mssort.get_file_tags tags output = some (specTagMap tags (splitLines output))) ∧
    ((splitLines output).length ≤ tags.length →
      startsWithL "File not found".data output.data = false →
      pssort.get_file_tags tags output = some (specTagMap tags (splitLines output))) ∧
    (startsWithL "File not found".data output.data = true →
      pssort.get_file_tags tags output = some (tags.map (fun t => (t, none)))) := by
  have core : (splitLines output).length ≤ tags.length →
      (assignLines tags (splitLines output) []).map (fillMissing tags) =
        some (specTagMap tags (splitLines output)) := by
    intro hlen
    rw [assignLines_eq hlen hnodup (by intro t _; rfl)]
    rw [Option.map_some', List.nil_append]
    rw [fillMissing_eq hnodup]
    have hfc : tags.filter (fun t => !dictHasKey t (zipAssign tags (splitLines output))) =
        tags.filter (fun t => !decide (t ∈ tags.take (splitLines output).length)) := by
      apply List.filter_congr
      intro u _
      have hb : dictHasKey u (zipAssign tags (splitLines output)) =
          decide (u ∈ tags.take (splitLines output).length) :=
        bool_eq_of_iff (by simpa using dictHasKey_zipAssign_iff hlen)
      rw [hb]
    have hdisj : ∀ t ∈ tags.drop (splitLines output).length,
        t ∉ tags.take (splitLines output).length := by
      intro t ht hmem
      exact (List.disjoint_take_drop hnodup le_rfl) hmem ht
    rw [hfc, filter_not_mem_split (List.take_append_drop _ tags).symm hdisj]
    rw [specTagMap_decomp hlen]
  refine ⟨specTagMap_keys tags _, ?_, ?_, ?_⟩
  · intro hlen
    exact core hlen
  · intro hlen hsw
    show (if startsWithL "File not found".data output.data then _ else _) = _
    rw [hsw]
    simpa using core hlen
  · intro hsw
    show (if startsWithL "File not found".data output.data then _ else _) = _
    rw [hsw]
    rw [if_pos rfl]
    rw [fillMissing_eq hnodup]
    have : tags.filter (fun t => !dictHasKey t ([] : TagDict)) = tags := by
      rw [List.filter_eq_self]
      intro a _
      rfl
    rw [List.nil_append, this]

/-- Witness for C8 at a concrete input: three distinct tags, a two-line
output for the music reader and a not-found report for the photo reader. -/
theorem C8_tag_reader_witness :
    mssort.get_file_tags ["Artist", "Album", "Title"] "A\n-" =
      some [("Artist", some "A"), ("Album", none), ("Title", none)] ∧
    pssort.get_file_tags ["Artist", "Album", "Title"] "File not found: x" =
      some [("Artist", none), ("Album", none), ("Title", none)] := by
  constructor
  · have h := (C8_tag_reader ["Artist", "Album", "Title"] "A\n-" (by decide)).2.1
      (by decide)
    rw [h]
    rfl
  · have h := (C8_tag_reader ["Artist", "Album", "Title"] "File not found: x"
      (by decide)).2.2.2 (by decide)
    rw [h]
    rfl

/-- Counterexample to C8 as stated: on a "File not found" report the
MusicStation `get_file_tags` (mssort.py:49-71) stores the report line
verbatim as the first requested tag's value instead of returning the
all-absent mapping. -/
theorem C8_not_found_counterexample :
    mssort.get_file_tags ["Artist", "Album"] "File not found: x.mp3" =
      some [("Artist", some "File not found: x.mp3"), ("Album", none)] ∧
    mssort.get_file_tags ["Artist", "Album"] "File not found: x.mp3" ≠
      some [("Artist", none), ("Album", none)] := by
  constructor
  · rfl
  · decide

/-! ### Lemmas about the photo rename rule (claim C9) -/

theorem digitChar_isDigit {n : Nat} (h : n < 10) :
    (Char.ofNat (48 + n)).isDigit = true := by
  interval_cases n <;> decide

theorem isDigit_ne_slash {c : Char} (h : c.isDigit = true) : c ≠ '/' := by
  intro heq
  subst heq
  exact absurd h (by decide)

theorem natDigitsAux_digits {fuel : Nat} :
    ∀ {n : Nat}, ∀ c ∈ natDigitsAux fuel n, c.isDigit = true := by
  induction fuel with
  | zero => intro n c hc; simp [natDigitsAux] at hc
  | succ fuel ih =>
    intro n c hc
    by_cases h : n < 10
    · simp [natDigitsAux, h] at hc
      subst hc
      exact digitChar_isDigit h
    · simp [natDigitsAux, h] at hc
      rcases hc with hc | hc
      · exact ih _ hc
      · subst hc
        exact digitChar_isDigit (Nat.mod_lt _ (by omega))

theorem natDigitsAux_length_le {fuel : Nat} :
    ∀ {n k : Nat}, n < 10 ^ k → 1 ≤ k → (natDigitsAux fuel n).length ≤ k := by
  induction fuel with
  | zero => intro n k _ _; simp [natDigitsAux]
  | succ fuel ih =>
    intro n k hn hk
    by_cases h : n < 10
    · simp [natDigitsAux, h]
      exact hk
    · simp [natDigitsAux, h]
      have hk2 : 2 ≤ k := by
        rcases Nat.lt_or_ge k 2 with hlt | hge
        · exfalso
          have hk1 : k = 1 := by omega
          rw [hk1] at hn
          simp at hn
          omega
        · exact hge
      have hdiv : n / 10 < 10 ^ (k - 1) := by
        rw [Nat.div_lt_iff_lt_mul (by norm_num)]
        calc n < 10 ^ k := hn
          _ = 10 ^ (k - 1) * 10 := by
              rw [← pow_succ]
              congr 1
              omega
      have := ih hdiv (by omega)
      omega

theorem natDigitsAux_ne_nil {fuel n : Nat} (h : 0 < fuel) :
    natDigitsAux fuel n ≠ [] := by
  cases fuel with
  | zero => omega
  | succ fuel => by_cases h10 : n < 10 <;> simp [natDigitsAux, h10]

/-- Shape of the zero-padded decimal rendering: exactly `w` characters, all
digits, for `n < 10^w`. -/
theorem zpad_shape {w n : Nat} (hw : 1 ≤ w) (hn : n < 10 ^ w) :
    (zpad w n).data.length = w ∧ ∀ c ∈ (zpad w n).data, c.isDigit = true := by
  have hle : (natStr n).data.length ≤ w := natDigitsAux_length_le hn hw
  have hge : 1 ≤ (natStr n).data.length := by
    show 1 ≤ (natDigitsAux (n + 1) n).length
    cases hnd : natDigitsAux (n + 1) n with
    | nil => exact absurd hnd (natDigitsAux_ne_nil (by omega))
    | cons a t => simp
  constructor
  · show (List.replicate (w - (natStr n).data.length) '0' ++ (natStr n).data).length = w
    rw [List.length_append, List.length_replicate]
    omega
  · intro c hc
    rcases List.mem_append.mp hc with h | h
    · rw [List.eq_of_mem_replicate h]
      decide
    · exact natDigitsAux_digits c h

theorem length_two_explicit {l : List Char} (h : l.length = 2) :
    ∃ a b, l = [a, b] := by
  rcases l with _ | ⟨a, l⟩
  · simp at h
  rcases l with _ | ⟨b, l⟩
  · simp at h
  rcases l with _ | ⟨c, l⟩
  · exact ⟨a, b, rfl⟩
  · simp at h

theorem length_four_explicit {l : List Char} (h : l.length = 4) :
    ∃ a b c d, l = [a, b, c, d] := by
  rcases l with _ | ⟨a, l⟩
  · simp at h
  rcases l with _ | ⟨b, l⟩
  · simp at h
  obtain ⟨c, d, hl⟩ := length_two_explicit (l := l) (by simpa using h)
  exact ⟨a, b, c, d, by rw [hl]⟩

/-- Building block for C9: four digits, dash, two digits, dash, two digits,
underscore always matches the date prefix pattern. -/
theorem dateUnderscoreMatch_build {y m d rest : List Char}
    (hy : y.length = 4) (hm : m.length = 2) (hd : d.length = 2)
    (hyd : ∀ c ∈ y, c.isDigit = true) (hmd : ∀ c ∈ m, c.isDigit = true)
    (hdd : ∀ c ∈ d, c.isDigit = true) :
    pssort.dateUnderscoreMatch (y ++ '-' :: (m ++ '-' :: (d ++ '_' :: rest))) = true := by
  obtain ⟨y1, y2, y3, y4, rfl⟩ := length_four_explicit hy
  obtain ⟨m1, m2, rfl⟩ := length_two_explicit hm
  obtain ⟨d1, d2, rfl⟩ := length_two_explicit hd
  have h1 := hyd y1 (by simp)
  have h2 := hyd y2 (by simp)
  have h3 := hyd y3 (by simp)
  have h4 := hyd y4 (by simp)
  have h5 := hmd m1 (by simp)
  have h6 := hmd m2 (by simp)
  have h7 := hdd d1 (by simp)
  have h8 := hdd d2 (by simp)
  simp [pssort.dateUnderscoreMatch, h1, h2, h3, h4, h5, h6, h7, h8]

theorem isoDate_data (d : pssort.PhotoDate) :
    (pssort.isoDate d).data =
      (zpad 4 d.year).data ++ '-' ::
        ((zpad 2 d.month).data ++ '-' :: (zpad 2 d.day).data) := by
  show (zpad 4 d.year ++ "-" ++ zpad 2 d.month ++ "-" ++ zpad 2 d.day).data = _
  rw [String.data_append, String.data_append, String.data_append, String.data_append]
  rw [show ("-" : String).data = ['-'] from rfl]
  simp

theorem baseName_no_slash {p : List Char} : ∀ c ∈ baseName p, c ≠ '/' := by
  intro c hc
  have h1 : c ∈ p.reverse.takeWhile (fun c => c != '/') := by
    have := hc
    unfold baseName at this
    exact List.mem_reverse.mp this
  have h2 := List.mem_takeWhile_imp h1
  simpa using h2

theorem baseName_eq_self {l : List Char} (h : ∀ c ∈ l, c ≠ '/') :
    baseName l = l := by
  unfold baseName
  rw [List.takeWhile_eq_self_iff.mpr (by intro x hx; simpa using h x (List.mem_reverse.mp hx))]
  exact List.reverse_reverse l

/-- C9: for a valid resolved CreateDate, the photo filename `get_new_name`
returns always starts with the "YYYY-MM-DD_" pattern (pre-existing or newly
added), and feeding any such produced name back to `get_new_name` — with any
date — returns it unchanged, so a re-run never adds a second date prefix. -/
theorem C9_photo_rename_idempotent (file : String) (d : pssort.PhotoDate)
    (hv : validDate d) :
    pssort.dateUnderscoreMatch (pssort.get_new_name file d).data = true ∧
    ∀ d2 : pssort.PhotoDate,
      pssort.get_new_name (pssort.get_new_name file d) d2 =
        pssort.get_new_name file d := by
  obtain ⟨hy1, hy2, hm1, hm2, hd1, hd2⟩ := hv
  have hy : (zpad 4 d.year).data.length = 4 ∧ ∀ c ∈ (zpad 4 d.year).data, c.isDigit = true :=
    zpad_shape (by omega) (by
      have : (10 : Nat) ^ 4 = 10000 := by norm_num
      omega)
  have hm : (zpad 2 d.month).data.length = 2 ∧ ∀ c ∈ (zpad 2 d.month).data, c.isDigit = true :=
    zpad_shape (by omega) (by
      have : (10 : Nat) ^ 2 = 100 := by norm_num
      omega)
  have hd : (zpad 2 d.day).data.length = 2 ∧ ∀ c ∈ (zpad 2 d.day).data, c.isDigit = true :=
    zpad_shape (by omega) (by
      have : (10 : Nat) ^ 2 = 100 := by norm_num
      omega)
  have match_result : pssort.dateUnderscoreMatch (pssort.get_new_name file d).data = true := by
    show pssort.dateUnderscoreMatch
      (if pssort.dateUnderscoreMatch (String.mk (baseName file.data)).data then
        String.mk (baseName file.data)
      else pssort.isoDate d ++ "_" ++ String.mk (baseName file.data)).data = true
    cases hmatch : pssort.dateUnderscoreMatch (String.mk (baseName file.data)).data with
    | true => rw [if_pos rfl]; exact hmatch
    | false =>
      rw [if_neg (by simp)]
      rw [String.data_append, String.data_append]
      rw [show ("_" : String).data = ['_'] from rfl]
      rw [isoDate_data]
      rw [show (String.mk (baseName file.data)).data = baseName file.data from rfl]
      have hshape : pssort.dateUnderscoreMatch
          ((zpad 4 d.year).data ++ '-' :: ((zpad 2 d.month).data ++ '-' ::
            ((zpad 2 d.day).data ++ '_' :: baseName file.data))) = true :=
        dateUnderscoreMatch_build hy.1 hm.1 hd.1 hy.2 hm.2 hd.2
      simpa using hshape
  refine ⟨match_result, ?_⟩
  intro d2
  have no_slash : ∀ c ∈ (pssort.get_new_name file d).data, c ≠ '/' := by
    show ∀ c ∈ (if pssort.dateUnderscoreMatch (String.mk (baseName file.data)).data then
        String.mk (baseName file.data)
      else pssort.isoDate d ++ "_" ++ String.mk (baseName file.data)).data, c ≠ '/'
    cases hmatch : pssort.dateUnderscoreMatch (String.mk (baseName file.data)).data with
    | true =>
      rw [if_pos rfl]
      exact baseName_no_slash
    | false =>
      rw [if_neg (by simp)]
      intro c hc
      rw [String.data_append, String.data_append,
        show ("_" : String).data = ['_'] from rfl, isoDate_data] at hc
      rw [show (String.mk (baseName file.data)).data = baseName file.data from rfl] at hc
      simp only [List.append_assoc, List.cons_append, List.mem_append, List.mem_cons] at hc
      rcases hc with hc | rfl | hc | rfl | hc | rfl | hc | hc
      · exact isDigit_ne_slash (hy.2 c hc)
      · decide
      · exact isDigit_ne_slash (hm.2 c hc)
      · decide
      · exact isDigit_ne_slash (hd.2 c hc)
      · decide
      · simp at hc
      · exact baseName_no_slash c hc
  show (if pssort.dateUnderscoreMatch
      (String.mk (baseName (pssort.get_new_name file d).data)).data then
      String.mk (baseName (pssort.get_new_name file d).data)
    else pssort.isoDate d2 ++ "_" ++ String.mk (baseName (pssort.get_new_name file d).data)) =
      pssort.get_new_name file d
  rw [baseName_eq_self no_slash]
  rw [show (String.mk (pssort.get_new_name file d).data) = pssort.get_new_name file d from rfl]
  rw [if_pos (by rw [match_result])]

/-- Witness for C9 at the spec's own example: "Birthday.jpg" on 2015-09-28,
then a re-run on 1999-01-02. -/
theorem C9_photo_rename_witness :
    pssort.dateUnderscoreMatch
      (pssort.get_new_name "pics/Birthday.jpg" ⟨2015, 9, 28⟩).data = true ∧
    pssort.get_new_name (pssort.get_new_name "pics/Birthday.jpg" ⟨2015, 9, 28⟩)
        ⟨1999, 1, 2⟩ =
      pssort.get_new_name "pics/Birthday.jpg" ⟨2015, 9, 28⟩ :=
  ⟨(C9_photo_rename_idempotent "pics/Birthday.jpg" ⟨2015, 9, 28⟩
      (by norm_num [validDate])).1,
    (C9_photo_rename_idempotent "pics/Birthday.jpg" ⟨2015, 9, 28⟩
      (by norm_num [validDate])).2 ⟨1999, 1, 2⟩⟩
